import Mathlib

/-!
Verification of the AQI computation core of the Air Quality Analyzer backend
(`src/main.py`), embedded shallowly: concentrations are rationals, the
breakpoint tables are lists of rows, and Python 3 `round` (nearest integer,
ties to even) is modelled by `pyRound`.
-/

namespace AirQuality

/-- Python 3 `round` on an exact rational: nearest integer, ties to even. -/
def pyRound (q : ℚ) : ℤ :=
  if q - ⌊q⌋ < 1/2 then ⌊q⌋
  else if 1/2 < q - ⌊q⌋ then ⌊q⌋ + 1
  else if ⌊q⌋ % 2 = 0 then ⌊q⌋ else ⌊q⌋ + 1

/-- One breakpoint row `[Clow, Chigh, Ilow, Ihigh]` of a CPCB table. -/
structure BPRow where
  Cl : ℚ
  Ch : ℚ
  Il : ℤ
  Ih : ℤ
  deriving DecidableEq

/-- The linear interpolation `((Ih - Il) / (Ch - Cl)) * (Cp - Cl) + Il`
performed inside the matched row of `_calc_sub_index`. -/
def rowInterp (r : BPRow) (Cp : ℚ) : ℚ :=
  ((r.Ih - r.Il : ℤ) : ℚ) / (r.Ch - r.Cl) * (Cp - r.Cl) + (r.Il : ℚ)

/-- The `for` loop of `_calc_sub_index`: scan rows in order, return the
interpolated value rounded at the first row with `Cp <= Ch`, else 500. -/
def calcScan (Cp : ℚ) : List BPRow → ℤ
  | [] => 500
  | r :: rest => if Cp ≤ r.Ch then pyRound (rowInterp r Cp) else calcScan Cp rest

/-- `_calc_sub_index` from `src/main.py`: clamp `Cp` to non-negative, then
scan the breakpoint rows. -/
def _calc_sub_index (Cp : ℚ) (breakpoints : List BPRow) : ℤ :=
  calcScan (max 0 Cp) breakpoints

/-- The CPCB PM2.5 breakpoint table of `sub_index_pm25`. -/
def pm25_bps : List BPRow :=
  [⟨0, 30, 0, 50⟩, ⟨31, 60, 51, 100⟩, ⟨61, 90, 101, 200⟩,
   ⟨91, 120, 201, 300⟩, ⟨121, 250, 301, 400⟩, ⟨251, 350, 401, 500⟩]

/-- The CPCB PM10 breakpoint table of `sub_index_pm10`. -/
def pm10_bps : List BPRow :=
  [⟨0, 50, 0, 50⟩, ⟨51, 100, 51, 100⟩, ⟨101, 250, 101, 200⟩,
   ⟨251, 350, 201, 300⟩, ⟨351, 430, 301, 400⟩, ⟨431, 600, 401, 500⟩]

/-- `sub_index_pm25` from `src/main.py`. -/
def sub_index_pm25 (pm25 : ℚ) : ℤ := _calc_sub_index pm25 pm25_bps

/-- `sub_index_pm10` from `src/main.py`. -/
def sub_index_pm10 (pm10 : ℚ) : ℤ := _calc_sub_index pm10 pm10_bps

/-- `aqi_category` from `src/main.py`. -/
def aqi_category (aqi : ℤ) : String :=
  if aqi ≤ 50 then "Good"
  else if aqi ≤ 100 then "Satisfactory"
  else if aqi ≤ 200 then "Moderate"
  else if aqi ≤ 300 then "Poor"
  else if aqi ≤ 400 then "Very Poor"
  else "Severe"

/-- The validated ingest payload (`IngestReading` pydantic model). -/
structure IngestReading where
  pm25 : ℚ
  pm10 : ℚ
  co2 : Option ℚ
  temperature : Option ℚ
  humidity : Option ℚ
  deriving DecidableEq

/-- The pure computation of `ingest_reading` in `src/main.py`: the AQI is the
maximum of the two sub-indices and the category is derived from it.  The
response fields `aqi` and `category` are returned as a pair. -/
def ingest_reading (p : IngestReading) : ℤ × String :=
  let si_pm25 := sub_index_pm25 p.pm25
  let si_pm10 := sub_index_pm10 p.pm10
  let aqi := max si_pm25 si_pm10
  (aqi, aqi_category aqi)

/-- The sub-index algorithm exactly as the specification words it: clamp `Cp`
to `max(0, Cp)`, select the FIRST row whose `Chigh` satisfies `Cp <= Chigh`
(via `List.find?`), and return the rounded interpolation, with 500 when no
row matches. -/
def spec_sub_index (Cp : ℚ) (bps : List BPRow) : ℤ :=
  match bps.find? (fun r => decide (max 0 Cp ≤ r.Ch)) with
  | some r => pyRound (((r.Ih - r.Il : ℤ) : ℚ) / (r.Ch - r.Cl) * (max 0 Cp - r.Cl) + (r.Il : ℚ))
  | none => 500

/-- `c` lies inside one of the table's defined concentration ranges. -/
def InTable (bps : List BPRow) (c : ℚ) : Prop :=
  ∃ r ∈ bps, r.Cl ≤ c ∧ c ≤ r.Ch

/-- Well-formedness of a breakpoint table: each row has `Cl < Ch` and
`Il ≤ Ih`, and each row lies strictly below every later row in both the
concentration and the index coordinate. -/
def TableOK : List BPRow → Prop
  | [] => True
  | r :: rest =>
      (r.Cl < r.Ch ∧ r.Il ≤ r.Ih) ∧ (∀ s ∈ rest, r.Ch < s.Cl ∧ r.Ih < s.Il) ∧ TableOK rest

/-- A persisted reading document as `get_history` sees it: an optional
`timestamp`, an optional `created_at` fallback, and an opaque payload. -/
structure HistDoc where
  timestamp : Option ℕ
  created_at : Option ℕ
  payload : ℕ
  deriving DecidableEq

/-- The sort key of `get_history`: `d.get("timestamp") or d.get("created_at")
or datetime.min`, with `datetime.min` mapped to 0. -/
def histKey (d : HistDoc) : ℕ :=
  match d.timestamp with
  | some t => t
  | none =>
      match d.created_at with
      | some t => t
      | none => 0

/-- The descending comparison used by `sorted(..., reverse=True)`. -/
def histDesc (a b : HistDoc) : Bool :=
  decide (histKey b ≤ histKey a)

/-- `get_history` from `src/main.py`: clamp the requested count to `[1, 500]`
(default 50), sort the documents latest-first, keep the first `lim`, and
reverse into chronological order. -/
def get_history (docs : List HistDoc) (limit : Option ℤ) : List HistDoc :=
  let l : ℤ := limit.getD 50
  let lim : ℤ := max 1 (min l 500)
  let docs_sorted := (docs.mergeSort histDesc).take lim.toNat
  docs_sorted.reverse

theorem pyRound_intCast (m : ℤ) : pyRound (m : ℚ) = m := by
  unfold pyRound
  norm_num

theorem pyRound_mono {a b : ℚ} (hab : a ≤ b) : pyRound a ≤ pyRound b := by
  have hf : ⌊a⌋ ≤ ⌊b⌋ := Int.floor_le_floor hab
  rcases lt_or_eq_of_le hf with hlt | heq
  · have h1 : pyRound a ≤ ⌊a⌋ + 1 := by unfold pyRound; split_ifs <;> omega
    have h2 : ⌊b⌋ ≤ pyRound b := by unfold pyRound; split_ifs <;> omega
    omega
  · have hr : a - (⌊a⌋ : ℚ) ≤ b - (⌊b⌋ : ℚ) := by
      rw [← heq]; linarith
    unfold pyRound
    rw [← heq]
    rw [← heq] at hr
    split_ifs <;> first | omega | (exfalso; linarith)

theorem pyRound_le (m : ℤ) (q : ℚ) (h : q ≤ (m : ℚ)) : pyRound q ≤ m := by
  have h2 := pyRound_mono h
  rwa [pyRound_intCast] at h2

theorem le_pyRound (m : ℤ) (q : ℚ) (h : (m : ℚ) ≤ q) : m ≤ pyRound q := by
  have h2 := pyRound_mono h
  rwa [pyRound_intCast] at h2

theorem pyRound_tie (q : ℚ) (h : q - (⌊q⌋ : ℚ) = 1/2) :
    pyRound q % 2 = 0 ∧ (pyRound q = ⌊q⌋ ∨ pyRound q = ⌊q⌋ + 1) := by
  unfold pyRound
  rw [h]
  norm_num
  split_ifs <;> omega

theorem rowInterp_mono (r : BPRow) (h1 : r.Cl < r.Ch) (h2 : r.Il ≤ r.Ih)
    {c1 c2 : ℚ} (h : c1 ≤ c2) : rowInterp r c1 ≤ rowInterp r c2 := by
  unfold rowInterp
  have hs : (0 : ℚ) ≤ ((r.Ih - r.Il : ℤ) : ℚ) / (r.Ch - r.Cl) := by
    apply div_nonneg
    · have hc : (r.Il : ℚ) ≤ (r.Ih : ℚ) := by exact_mod_cast h2
      push_cast
      linarith
    · linarith
  have := mul_le_mul_of_nonneg_left (by linarith : c1 - r.Cl ≤ c2 - r.Cl) hs
  linarith

theorem rowInterp_Cl (r : BPRow) : rowInterp r r.Cl = (r.Il : ℚ) := by
  unfold rowInterp
  simp

theorem rowInterp_Ch (r : BPRow) (h : r.Cl < r.Ch) : rowInterp r r.Ch = (r.Ih : ℚ) := by
  unfold rowInterp
  have hne : r.Ch - r.Cl ≠ 0 := by linarith
  rw [div_mul_cancel₀ _ hne]
  push_cast
  ring

theorem tableOK_row : ∀ (bps : List BPRow), TableOK bps →
    ∀ r ∈ bps, r.Cl < r.Ch ∧ r.Il ≤ r.Ih := by
  intro bps
  induction bps with
  | nil => intro _ r hr; simp at hr
  | cons hd rest ih =>
    intro hok r hr
    rcases List.mem_cons.mp hr with rfl | hr'
    · exact hok.1
    · exact ih hok.2.2 r hr'

theorem calcScan_in_row : ∀ (bps : List BPRow), TableOK bps →
    ∀ r ∈ bps, ∀ c : ℚ, r.Cl ≤ c → c ≤ r.Ch →
    calcScan c bps = pyRound (rowInterp r c) := by
  intro bps
  induction bps with
  | nil => intro _ r hr; simp at hr
  | cons hd rest ih =>
    intro hok r hr c hcl hch
    rcases List.mem_cons.mp hr with rfl | hr'
    · simp [calcScan, if_pos hch]
    · have hlt : hd.Ch < r.Cl := (hok.2.1 r hr').1
      have hn : ¬ (c ≤ hd.Ch) := by linarith
      simp only [calcScan, if_neg hn]
      exact ih hok.2.2 r hr' c hcl hch

theorem calcScan_row_bounds (bps : List BPRow) (hok : TableOK bps)
    (r : BPRow) (hr : r ∈ bps) (c : ℚ) (hcl : r.Cl ≤ c) (hch : c ≤ r.Ch) :
    r.Il ≤ calcScan c bps ∧ calcScan c bps ≤ r.Ih := by
  obtain ⟨hlt, hle⟩ := tableOK_row bps hok r hr
  rw [calcScan_in_row bps hok r hr c hcl hch]
  constructor
  · exact le_pyRound _ _ (by rw [← rowInterp_Cl r]; exact rowInterp_mono r hlt hle hcl)
  · exact pyRound_le _ _ (by rw [← rowInterp_Ch r hlt]; exact rowInterp_mono r hlt hle hch)

theorem calcScan_mono : ∀ (bps : List BPRow), TableOK bps → ∀ c1 c2 : ℚ,
    InTable bps c1 → InTable bps c2 → c1 ≤ c2 →
    calcScan c1 bps ≤ calcScan c2 bps := by
  intro bps
  induction bps with
  | nil => intro _ c1 c2 h1; rcases h1 with ⟨r, hr, _⟩; simp at hr
  | cons hd rest ih =>
    intro hok c1 c2 h1 h2 h12
    by_cases hc2 : c2 ≤ hd.Ch
    · have hc1 : c1 ≤ hd.Ch := le_trans h12 hc2
      simp only [calcScan, if_pos hc1, if_pos hc2]
      exact pyRound_mono (rowInterp_mono hd hok.1.1 hok.1.2 h12)
    · by_cases hc1 : c1 ≤ hd.Ch
      · rcases h2 with ⟨r2, hr2, hcl2, hch2⟩
        have hr2' : r2 ∈ rest := by
          rcases List.mem_cons.mp hr2 with rfl | h
          · exact absurd hch2 hc2
          · exact h
        simp only [calcScan, if_pos hc1, if_neg hc2]
        have hub : pyRound (rowInterp hd c1) ≤ hd.Ih :=
          pyRound_le _ _ (by rw [← rowInterp_Ch hd hok.1.1]
                             exact rowInterp_mono hd hok.1.1 hok.1.2 hc1)
        have hlb : r2.Il ≤ calcScan c2 rest :=
          (calcScan_row_bounds rest hok.2.2 r2 hr2' c2 hcl2 hch2).1
        have hsep : hd.Ih < r2.Il := (hok.2.1 r2 hr2').2
        omega
      · rcases h1 with ⟨r1, hr1, hcl1, hch1⟩
        rcases h2 with ⟨r2, hr2, hcl2, hch2⟩
        have hr1' : r1 ∈ rest := by
          rcases List.mem_cons.mp hr1 with rfl | h
          · exact absurd hch1 hc1
          · exact h
        have hr2' : r2 ∈ rest := by
          rcases List.mem_cons.mp hr2 with rfl | h
          · exact absurd hch2 hc2
          · exact h
        simp only [calcScan, if_neg hc1, if_neg hc2]
        exact ih hok.2.2 c1 c2 ⟨r1, hr1', hcl1, hch1⟩ ⟨r2, hr2', hcl2, hch2⟩ h12

theorem calcScan_eq_find : ∀ (bps : List BPRow) (c : ℚ),
    calcScan c bps =
      match bps.find? (fun r => decide (c ≤ r.Ch)) with
      | some r => pyRound (rowInterp r c)
      | none => 500 := by
  intro bps
  induction bps with
  | nil => intro c; simp [calcScan, List.find?]
  | cons hd rest ih =>
    intro c
    by_cases h : c ≤ hd.Ch
    · simp [calcScan, List.find?, h]
    · simp [calcScan, List.find?, h, ih c]

theorem pm25_tableOK : TableOK pm25_bps := by
  simp only [TableOK, pm25_bps, List.mem_cons, List.mem_singleton, List.not_mem_nil]
  norm_num

theorem pm10_tableOK : TableOK pm10_bps := by
  simp only [TableOK, pm10_bps, List.mem_cons, List.mem_singleton, List.not_mem_nil]
  norm_num

theorem pm25_inTable_nonneg {c : ℚ} (h : InTable pm25_bps c) : 0 ≤ c := by
  rcases h with ⟨r, hr, hcl, _⟩
  have hnn : (0 : ℚ) ≤ r.Cl := by fin_cases hr <;> norm_num
  linarith

theorem pm10_inTable_nonneg {c : ℚ} (h : InTable pm10_bps c) : 0 ≤ c := by
  rcases h with ⟨r, hr, hcl, _⟩
  have hnn : (0 : ℚ) ≤ r.Cl := by fin_cases hr <;> norm_num
  linarith

theorem calcScan_pm25_bounds (d : ℚ) (h0 : 0 ≤ d) :
    0 ≤ calcScan d pm25_bps ∧ calcScan d pm25_bps ≤ 500 := by
  simp only [pm25_bps, calcScan]
  split_ifs with h1 h2 h3 h4 h5 h6 <;>
    first
    | (refine ⟨le_pyRound 0 _ ?_, pyRound_le 500 _ ?_⟩ <;>
        (simp only [rowInterp]; push_cast; norm_num) <;> linarith)
    | norm_num

theorem calcScan_pm10_bounds (d : ℚ) (h0 : 0 ≤ d) :
    0 ≤ calcScan d pm10_bps ∧ calcScan d pm10_bps ≤ 500 := by
  simp only [pm10_bps, calcScan]
  split_ifs with h1 h2 h3 h4 h5 h6 <;>
    first
    | (refine ⟨le_pyRound 0 _ ?_, pyRound_le 500 _ ?_⟩ <;>
        (simp only [rowInterp]; push_cast; norm_num) <;> linarith)
    | norm_num

theorem sub_index_pm25_bounds (c : ℚ) :
    0 ≤ sub_index_pm25 c ∧ sub_index_pm25 c ≤ 500 :=
  calcScan_pm25_bounds (max 0 c) (le_max_left 0 c)

theorem sub_index_pm10_bounds (c : ℚ) :
    0 ≤ sub_index_pm10 c ∧ sub_index_pm10 c ≤ 500 :=
  calcScan_pm10_bounds (max 0 c) (le_max_left 0 c)

theorem aqi_category_mem (a : ℤ) :
    aqi_category a ∈
      (["Good", "Satisfactory", "Moderate", "Poor", "Very Poor", "Severe"] : List String) := by
  unfold aqi_category
  split_ifs <;> simp

/-- Claim C1: the sub-index clamps `Cp` to `max(0, Cp)`, selects the first
row (in list order) whose `Chigh` satisfies `Cp <= Chigh`, and returns the
rounded linear interpolation; every negative input yields the same sub-index
as input 0. -/
theorem sub_index_clamps_and_picks_first_row :
    (∀ (Cp : ℚ) (bps : List BPRow), _calc_sub_index Cp bps = _calc_sub_index (max 0 Cp) bps)
    ∧ (∀ (Cp : ℚ) (bps : List BPRow), Cp < 0 → _calc_sub_index Cp bps = _calc_sub_index 0 bps)
    ∧ (∀ (Cp : ℚ) (bps : List BPRow), _calc_sub_index Cp bps = spec_sub_index Cp bps) := by
  refine ⟨?_, ?_, ?_⟩
  · intro Cp bps
    unfold _calc_sub_index
    rw [← max_assoc, max_self]
  · intro Cp bps h
    unfold _calc_sub_index
    rw [max_eq_left h.le, max_self]
  · intro Cp bps
    unfold _calc_sub_index spec_sub_index
    rw [calcScan_eq_find]
    rfl

/-- Witness for claim C1 at the concrete negative input -5. -/
theorem sub_index_clamps_witness :
    _calc_sub_index (-5) pm25_bps = _calc_sub_index 0 pm25_bps :=
  sub_index_clamps_and_picks_first_row.2.1 (-5) pm25_bps (by norm_num)

/-- Claim C2: the AQI computed by the ingest pipeline is the maximum of the
PM2.5 and PM10 sub-indices, and the optional co2, temperature and humidity
fields have no effect on the AQI or the category. -/
theorem aqi_is_max_of_sub_indices :
    ∀ (pm25 pm10 : ℚ) (co2 t h co2' t' h' : Option ℚ),
      (ingest_reading ⟨pm25, pm10, co2, t, h⟩).1
        = max (sub_index_pm25 pm25) (sub_index_pm10 pm10)
      ∧ ingest_reading ⟨pm25, pm10, co2, t, h⟩ = ingest_reading ⟨pm25, pm10, co2', t', h'⟩ := by
  intro pm25 pm10 co2 t h co2' t' h'
  exact ⟨rfl, rfl⟩

/-- Claim C3: each pollutant's sub-index is monotonically non-decreasing on
the pollutant's defined concentration ranges. -/
theorem sub_index_monotone :
    (∀ c1 c2 : ℚ, InTable pm25_bps c1 → InTable pm25_bps c2 → c1 ≤ c2 →
      sub_index_pm25 c1 ≤ sub_index_pm25 c2)
    ∧ (∀ c1 c2 : ℚ, InTable pm10_bps c1 → InTable pm10_bps c2 → c1 ≤ c2 →
      sub_index_pm10 c1 ≤ sub_index_pm10 c2) := by
  constructor
  · intro c1 c2 h1 h2 h12
    have h01 : (0 : ℚ) ≤ c1 := pm25_inTable_nonneg h1
    have h02 : (0 : ℚ) ≤ c2 := pm25_inTable_nonneg h2
    unfold sub_index_pm25 _calc_sub_index
    rw [max_eq_right h01, max_eq_right h02]
    exact calcScan_mono pm25_bps pm25_tableOK c1 c2 h1 h2 h12
  · intro c1 c2 h1 h2 h12
    have h01 : (0 : ℚ) ≤ c1 := pm10_inTable_nonneg h1
    have h02 : (0 : ℚ) ≤ c2 := pm10_inTable_nonneg h2
    unfold sub_index_pm10 _calc_sub_index
    rw [max_eq_right h01, max_eq_right h02]
    exact calcScan_mono pm10_bps pm10_tableOK c1 c2 h1 h2 h12

/-- Witness for claim C3 at the concrete pair 10 <= 40 for both pollutants. -/
theorem sub_index_monotone_witness :
    sub_index_pm25 10 ≤ sub_index_pm25 40 ∧ sub_index_pm10 10 ≤ sub_index_pm10 40 := by
  constructor
  · exact sub_index_monotone.1 10 40
      ⟨⟨0, 30, 0, 50⟩, by norm_num [pm25_bps], by norm_num, by norm_num⟩
      ⟨⟨31, 60, 51, 100⟩, by norm_num [pm25_bps], by norm_num, by norm_num⟩
      (by norm_num)
  · exact sub_index_monotone.2 10 40
      ⟨⟨0, 50, 0, 50⟩, by norm_num [pm10_bps], by norm_num, by norm_num⟩
      ⟨⟨0, 50, 0, 50⟩, by norm_num [pm10_bps], by norm_num, by norm_num⟩
      (by norm_num)

/-- Counterexample to claim C4: at PM10 concentration 2.5 the interpolated
value is exactly 2.5, whose tie Python 3 `round` resolves to the even
integer 2, not to 3 as round-half-away-from-zero would. -/
theorem round_tie_not_away_from_zero :
    rowInterp ⟨0, 50, 0, 50⟩ (5/2) = 5/2
    ∧ sub_index_pm10 (5/2) = 2 ∧ sub_index_pm10 (5/2) ≠ 3 := by
  have h2 : sub_index_pm10 (5/2) = 2 := by
    norm_num [sub_index_pm10, _calc_sub_index, pm10_bps, calcScan, rowInterp, pyRound]
  refine ⟨by norm_num [rowInterp], h2, by rw [h2]; norm_num⟩

/-- Claim C4 as amended: the rounding applied to interpolated sub-index
values resolves ties (fractional part exactly 1/2) to the nearest EVEN
integer (Python 3 banker's rounding), not away from zero. -/
theorem round_tie_half_to_even :
    ∀ q : ℚ, q - (⌊q⌋ : ℚ) = 1/2 →
      pyRound q % 2 = 0 ∧ (pyRound q = ⌊q⌋ ∨ pyRound q = ⌊q⌋ + 1) :=
  pyRound_tie

/-- Witness for the amended claim C4 at the tie value 5/2. -/
theorem round_tie_half_to_even_witness :
    (5/2 : ℚ) - (⌊(5/2 : ℚ)⌋ : ℚ) = 1/2 ∧ pyRound (5/2) % 2 = 0 := by
  have h : (5/2 : ℚ) - (⌊(5/2 : ℚ)⌋ : ℚ) = 1/2 := by norm_num
  exact ⟨h, (round_tie_half_to_even (5/2) h).1⟩

/-- Claim C5: beyond the last row's `Chigh` (350 for PM2.5, 600 for PM10)
the sub-index saturates to exactly 500. -/
theorem sub_index_saturates :
    (∀ Cp : ℚ, 350 < Cp → sub_index_pm25 Cp = 500)
    ∧ (∀ Cp : ℚ, 600 < Cp → sub_index_pm10 Cp = 500) := by
  constructor
  · intro Cp h
    unfold sub_index_pm25 _calc_sub_index
    rw [max_eq_right (by linarith : (0 : ℚ) ≤ Cp)]
    simp only [pm25_bps, calcScan]
    split_ifs <;> first | rfl | (exfalso; linarith)
  · intro Cp h
    unfold sub_index_pm10 _calc_sub_index
    rw [max_eq_right (by linarith : (0 : ℚ) ≤ Cp)]
    simp only [pm10_bps, calcScan]
    split_ifs <;> first | rfl | (exfalso; linarith)

/-- Witness for claim C5 at the concrete inputs 400 (PM2.5) and 601 (PM10). -/
theorem sub_index_saturates_witness :
    sub_index_pm25 400 = 500 ∧ sub_index_pm10 601 = 500 :=
  ⟨sub_index_saturates.1 400 (by norm_num), sub_index_saturates.2 601 (by norm_num)⟩

/-- Claim C6: at every breakpoint of each table the sub-index equals the
table's index value exactly: `subIndex(Chigh of row i) = Ihigh of row i` and
`subIndex(Clow of row i) = Ilow of row i`; in particular `subIndex(0) = 0`
for both PM2.5 and PM10. -/
theorem sub_index_breakpoint_values :
    sub_index_pm25 0 = 0 ∧ sub_index_pm25 30 = 50 ∧ sub_index_pm25 31 = 51 ∧
    sub_index_pm25 60 = 100 ∧ sub_index_pm25 61 = 101 ∧ sub_index_pm25 90 = 200 ∧
    sub_index_pm25 91 = 201 ∧ sub_index_pm25 120 = 300 ∧ sub_index_pm25 121 = 301 ∧
    sub_index_pm25 250 = 400 ∧ sub_index_pm25 251 = 401 ∧ sub_index_pm25 350 = 500 ∧
    sub_index_pm10 0 = 0 ∧ sub_index_pm10 50 = 50 ∧ sub_index_pm10 51 = 51 ∧
    sub_index_pm10 100 = 100 ∧ sub_index_pm10 101 = 101 ∧ sub_index_pm10 250 = 200 ∧
    sub_index_pm10 251 = 201 ∧ sub_index_pm10 350 = 300 ∧ sub_index_pm10 351 = 301 ∧
    sub_index_pm10 430 = 400 ∧ sub_index_pm10 431 = 401 ∧ sub_index_pm10 600 = 500 := by
  norm_num [sub_index_pm25, sub_index_pm10, _calc_sub_index, pm25_bps, pm10_bps,
    calcScan, rowInterp, pyRound]

/-- Claim C7: for every payload the computed AQI is an integer in [0, 500]
and the computed category is one of the six fixed labels. -/
theorem aqi_range_and_category :
    ∀ p : IngestReading,
      0 ≤ (ingest_reading p).1 ∧ (ingest_reading p).1 ≤ 500 ∧
      (ingest_reading p).2 ∈
        (["Good", "Satisfactory", "Moderate", "Poor", "Very Poor", "Severe"] : List String) := by
  intro p
  obtain ⟨h1, h2⟩ := sub_index_pm25_bounds p.pm25
  obtain ⟨h3, h4⟩ := sub_index_pm10_bounds p.pm10
  unfold ingest_reading
  refine ⟨?_, ?_, ?_⟩
  · exact le_max_of_le_left h1
  · exact max_le h2 h4
  · exact aqi_category_mem _

/-- Claim C8: the category classifier maps every integer AQI >= 0 to exactly
one of the six labels with inclusive upper bounds: 0-50 Good, 51-100
Satisfactory, 101-200 Moderate, 201-300 Poor, 301-400 Very Poor, above 400
Severe. -/
theorem aqi_category_bands :
    ∀ a : ℤ, 0 ≤ a →
      (a ≤ 50 → aqi_category a = "Good")
      ∧ (51 ≤ a → a ≤ 100 → aqi_category a = "Satisfactory")
      ∧ (101 ≤ a → a ≤ 200 → aqi_category a = "Moderate")
      ∧ (201 ≤ a → a ≤ 300 → aqi_category a = "Poor")
      ∧ (301 ≤ a → a ≤ 400 → aqi_category a = "Very Poor")
      ∧ (401 ≤ a → aqi_category a = "Severe") := by
  intro a ha
  unfold aqi_category
  refine ⟨?_, ?_, ?_, ?_, ?_, ?_⟩ <;> intros <;> split_ifs <;>
    first | rfl | (exfalso; omega)

/-- Witness for claim C8 at the concrete AQI 75. -/
theorem aqi_category_bands_witness : aqi_category 75 = "Satisfactory" :=
  (aqi_category_bands 75 (by norm_num)).2.1 (by norm_num) (by norm_num)

/-- Claim C10: the category classifier is total over all integers; every
negative AQI maps to "Good". -/
theorem aqi_category_negative_good :
    ∀ a : ℤ, a < 0 → aqi_category a = "Good" := by
  intro a h
  unfold aqi_category
  rw [if_pos (by omega)]

/-- Witness for claim C10 at the concrete AQI -7. -/
theorem aqi_category_negative_good_witness : aqi_category (-7) = "Good" :=
  aqi_category_negative_good (-7) (by norm_num)

theorem histDesc_trans : ∀ a b c : HistDoc,
    histDesc a b = true → histDesc b c = true → histDesc a c = true := by
  intro a b c
  simp only [histDesc, decide_eq_true_eq]
  omega

theorem histDesc_total : ∀ a b : HistDoc, (histDesc a b || histDesc b a) = true := by
  intro a b
  simp only [histDesc, Bool.or_eq_true, decide_eq_true_eq]
  omega

/-- Claim C9: `get_history` defaults the record count to 50, clamps it to
`[1, 500]`, returns the selected window in chronological (oldest-to-newest)
key order, its length is the clamped count capped by the store size, and
every stored record outside the returned window has a key no later than
every returned record (the window is the most recent one). -/
theorem get_history_clamps_defaults_orders :
    ∀ (docs : List HistDoc) (limit : ℤ),
      get_history docs none = get_history docs (some 50)
      ∧ get_history docs (some limit) = get_history docs (some (max 1 (min limit 500)))
      ∧ (get_history docs (some limit)).length = min (max 1 (min limit 500)).toNat docs.length
      ∧ (get_history docs (some limit)).Pairwise (fun a b => histKey a ≤ histKey b)
      ∧ (∀ e, e ∈ docs → e ∈ get_history docs (some limit)
           ∨ ∀ d, d ∈ get_history docs (some limit) → histKey e ≤ histKey d) := by
  intro docs limit
  have hclamp : max 1 (min (max 1 (min limit 500)) 500) = max 1 (min limit 500) := by omega
  have hsorted : (docs.mergeSort histDesc).Pairwise (fun a b => histDesc a b = true) :=
    List.sorted_mergeSort histDesc_trans histDesc_total docs
  refine ⟨rfl, ?_, ?_, ?_, ?_⟩
  · simp only [get_history, Option.getD_some]
    rw [hclamp]
  · simp only [get_history, Option.getD_some]
    rw [List.length_reverse, List.length_take,
      (List.mergeSort_perm docs histDesc).length_eq]
  · have htake : ((docs.mergeSort histDesc).take (max 1 (min limit 500)).toNat).Pairwise
        (fun a b => histDesc a b = true) :=
      List.Pairwise.sublist (List.take_sublist _ _) hsorted
    simp only [get_history, Option.getD_some]
    rw [List.pairwise_reverse]
    exact htake.imp (fun hab => by simpa [histDesc] using hab)
  · intro e he
    by_cases hmem : e ∈ get_history docs (some limit)
    · exact Or.inl hmem
    · right
      intro d hd
      have hdtake : d ∈ (docs.mergeSort histDesc).take (max 1 (min limit 500)).toNat := by
        simpa [get_history, List.mem_reverse] using hd
      have heMS : e ∈ docs.mergeSort histDesc :=
        (List.mergeSort_perm docs histDesc).mem_iff.mpr he
      have heSplit : e ∈ (docs.mergeSort histDesc).take (max 1 (min limit 500)).toNat
          ++ (docs.mergeSort histDesc).drop (max 1 (min limit 500)).toNat := by
        rw [List.take_append_drop]
        exact heMS
      have heDrop : e ∈ (docs.mergeSort histDesc).drop (max 1 (min limit 500)).toNat := by
        rcases List.mem_append.mp heSplit with hin | hin
        · exact absurd (by simpa [get_history, List.mem_reverse] using hin : e ∈ get_history docs (some limit)) hmem
        · exact hin
      have hsplit2 : List.Pairwise (fun a b => histDesc a b = true)
          ((docs.mergeSort histDesc).take (max 1 (min limit 500)).toNat
            ++ (docs.mergeSort histDesc).drop (max 1 (min limit 500)).toNat) := by
        rw [List.take_append_drop]
        exact hsorted
      have hp := List.pairwise_append.mp hsplit2
      have hde := hp.2.2 d hdtake e heDrop
      simpa [histDesc] using hde

/-- Witness for claim C9 on a concrete two-record store with count 1. -/
theorem get_history_witness :
    (⟨some 1, none, 1⟩ : HistDoc) ∈ get_history [⟨some 3, none, 0⟩, ⟨some 1, none, 1⟩] (some 1)
    ∨ ∀ d, d ∈ get_history [⟨some 3, none, 0⟩, ⟨some 1, none, 1⟩] (some 1) →
        histKey ⟨some 1, none, 1⟩ ≤ histKey d :=
  (get_history_clamps_defaults_orders [⟨some 3, none, 0⟩, ⟨some 1, none, 1⟩] 1).2.2.2.2
    ⟨some 1, none, 1⟩ (by simp)
